import Mathlib

/-!
# Verification of the `hr-id` crate (human-readable identifiers)

Shallow embedding of `src/lib.rs`, `src/hash.rs`, `src/serde.rs` and
`src/destream.rs`.  Rust `char` is embedded as Lean `Char` (both are Unicode
scalar values); Rust `str` / `String` as `List Char`; bytes as `Nat` (< 256
where it matters).  Fallible Rust code returns `Except` / `Option`.
-/

namespace HrId

instance {ε α : Type} [DecidableEq ε] [DecidableEq α] :
    DecidableEq (Except ε α) := fun a b =>
  match a, b with
  | .ok x, .ok y => decidable_of_iff (x = y) (by simp)
  | .ok _, .error _ => isFalse (by simp)
  | .error _, .ok _ => isFalse (by simp)
  | .error x, .error y => decidable_of_iff (x = y) (by simp)

/-! ## Character-level predicates used by `validate_id` -/

/-- Embedding of the Rust filter `(*c as u8) < 32u8` in `validate_id`
(`src/lib.rs:260`).  The cast `c as u8` truncates the code point to its low
byte, so the check is on `c.toNat % 256`, not on the code point itself. -/
def isCtrlByte (c : Char) : Bool :=
  decide (c.toNat % 256 < 32)

/-- Code points of the Unicode `White_Space` class, which is exactly what the
Rust regex `\s` (Unicode mode, the default) matches.  Modelled from the
documented behavior of the `regex` crate used at `src/lib.rs:275`. -/
def whiteCodes : List Nat :=
  [0x9, 0xA, 0xB, 0xC, 0xD, 0x20, 0x85, 0xA0, 0x1680,
   0x2000, 0x2001, 0x2002, 0x2003, 0x2004, 0x2005, 0x2006, 0x2007,
   0x2008, 0x2009, 0x200A, 0x2028, 0x2029, 0x202F, 0x205F, 0x3000]

/-- `c` matches the regex `\s` (Unicode whitespace). -/
def isWhiteChar (c : Char) : Bool :=
  decide (c.toNat ∈ whiteCodes)

/-- Embedding of Rust `str::contains(pattern)`: does `p` occur in `s` as a
contiguous substring?  (`id.contains(pattern)` at `src/lib.rs:270`.) -/
def containsSub (p : List Char) : List Char → Bool
  | [] => p.isEmpty
  | c :: t => p.isPrefixOf (c :: t) || containsSub p t

/-- `pub const RESERVED_CHARS: [&str; 21]` (`src/lib.rs:44`). -/
def RESERVED_CHARS : List (List Char) :=
  ["/".data, "..".data, "~".data, "$".data, "`".data, "&".data, "|".data,
   "=".data, "^".data, "\x7b".data, "\x7d".data, "<".data, ">".data,
   "'".data, "\"".data, "?".data, ":".data, "@".data, "#".data, "(".data,
   ")".data]

/-- Embedding of `ParseError` (`src/lib.rs:52`).  The Rust type carries a
formatted message string; each constructor here records which invariant the
message names together with the data interpolated into it (the candidate, the
offending truncated byte, the matched pattern, or the whitespace match). -/
inductive ParseError where
  | empty : ParseError
  | controlChar (id : List Char) (byte : Nat) : ParseError
  | reservedPattern (id : List Char) (pattern : List Char) : ParseError
  | whitespace (id : List Char) (w : Char) : ParseError
deriving DecidableEq

/-- The `for pattern in &RESERVED_CHARS` loop body of `validate_id`
(`src/lib.rs:269`): first reserved pattern contained in `s`, if any. -/
def findReservedIn (s : List Char) : List (List Char) → Option (List Char)
  | [] => none
  | p :: ps => if containsSub p s then some p else findReservedIn s ps

/-- Embedding of `fn validate_id(id: &str) -> Result<(), ParseError>`
(`src/lib.rs:255`): empty check, then control-byte check, then reserved
patterns, then whitespace regex, short-circuiting in that order. -/
def validate_id (id : List Char) : Except ParseError Unit :=
  if id = [] then .error .empty
  else
    match id.find? isCtrlByte with
    | some c => .error (.controlChar id (c.toNat % 256))
    | none =>
      match findReservedIn id RESERVED_CHARS with
      | some p => .error (.reservedPattern id p)
      | none =>
        match id.find? isWhiteChar with
        | some w => .error (.whitespace id w)
        | none => .ok ()

/-! ## The `Id` and `Label` types -/

/-- Embedding of `pub struct Id { inner: Arc<str> }` (`src/lib.rs:109`).
The `Arc` is a sharing optimization with no observable content beyond the
string payload. -/
structure Id where
  inner : List Char
deriving DecidableEq

/-- `Id::as_str` (`src/lib.rs:116`). -/
def Id.as_str (i : Id) : List Char := i.inner

/-- `Id::starts_with` (`src/lib.rs:126`). -/
def Id.startsWith (i : Id) (p : List Char) : Bool := p.isPrefixOf i.inner

/-- Embedding of `pub struct Label { id: &'static str }` (`src/lib.rs:72`). -/
structure Label where
  id : List Char
deriving DecidableEq

/-- `pub const fn label(id: &'static str) -> Label` (`src/lib.rs:103`). -/
def label (id : List Char) : Label := ⟨id⟩

/-- `impl From<Label> for Id` (`src/lib.rs:84`): no validation. -/
def idFromLabel (l : Label) : Id := ⟨l.id⟩

/-- `impl PartialEq<Id> for Label` (`src/lib.rs:90`). -/
def labelEqId (l : Label) (i : Id) : Bool := decide (l.id = i.as_str)

/-- `impl PartialEq<Label> for Id` (`src/lib.rs:171`). -/
def idEqLabel (i : Id) (l : Label) : Bool := decide (i.inner = l.id)

/-- `impl PartialEq<str> for Id` / `PartialEq<String>` / `PartialEq<&str>`
(`src/lib.rs:153-169`): all compare `self.inner.as_ref()` with the text. -/
def idEqStr (i : Id) (s : List Char) : Bool := decide (i.inner = s)

/-- `impl PartialEq<Id> for &str` (`src/lib.rs:177`). -/
def strEqId (s : List Char) (i : Id) : Bool := decide (s = i.inner)

/-! ## Byte-wise ordering of `str`

Rust's derived `Ord` on `Id` delegates to `Arc<str>`, and `str` compares by
its UTF-8 bytes lexicographically.  `utf8Nat` is the UTF-8 encoding of a
single code point, written with `/` and `%` instead of shifts and masks. -/

/-- UTF-8 encoding of the code point `n`. -/
def utf8Nat (n : Nat) : List Nat :=
  if n < 0x80 then [n]
  else if n < 0x800 then [0xC0 + n / 64, 0x80 + n % 64]
  else if n < 0x10000 then
    [0xE0 + n / 4096, 0x80 + (n / 64) % 64, 0x80 + n % 64]
  else
    [0xF0 + n / 262144, 0x80 + (n / 4096) % 64, 0x80 + (n / 64) % 64,
     0x80 + n % 64]

/-- UTF-8 encoding of one `Char`. -/
def utf8Char (c : Char) : List Nat := utf8Nat c.toNat

/-- UTF-8 bytes of a string. -/
def utf8Str (s : List Char) : List Nat := s.flatMap utf8Char

/-- Byte-wise lexicographic strict order on strings: how Rust's `str: Ord`
compares two strings. -/
def strLt (a b : List Char) : Prop :=
  List.Lex (· < ·) (utf8Str a) (utf8Str b)

instance : DecidableRel strLt := fun a b =>
  List.Lex.decidableRel _ (utf8Str a) (utf8Str b)

/-- The derived `Ord`/`PartialOrd` on `Id` (`src/lib.rs:108`): strict order
on the underlying `Arc<str>` payload, i.e. byte-wise on the UTF-8 bytes. -/
def idLt (a b : Id) : Prop := strLt a.inner b.inner

instance : DecidableRel idLt := fun a b =>
  inferInstanceAs (Decidable (strLt a.inner b.inner))

/-! ## Constructors of `Id` -/

/-- `impl FromStr for Id` (`src/lib.rs:213`): validate, then wrap. -/
def fromStr (id : List Char) : Except ParseError Id :=
  match validate_id id with
  | .error e => .error e
  | .ok _ => .ok ⟨id⟩

/-- `TryCastFrom<String> for Id::can_cast_from` (`src/lib.rs:224`). -/
def canCastFromString (id : List Char) : Bool := (validate_id id).isOk

/-- `TryCastFrom<String> for Id::opt_cast_from` (`src/lib.rs:228`):
`id.parse().ok()`. -/
def optCastFromString (id : List Char) : Option Id := (fromStr id).toOption

/-! ## Decimal rendering and parsing (`From<u64>` / `TryCastFrom<Id> for usize`)

Machine integers are embedded as `Nat`; `u64::to_string` is decimal
rendering, `str::parse::<usize>` accepts an optional `+` sign followed by
one or more decimal digits. -/

/-- The decimal digit character for `n < 10`. -/
def digitChar (n : Nat) : Char := "0123456789".data.getD n '*'

/-- Decimal rendering of `n`: embedding of `u64::to_string` / `usize::to_string`
(`src/lib.rs:203, 209`). -/
def natChars (n : Nat) : List Char :=
  if n < 10 then [digitChar n]
  else natChars (n / 10) ++ [digitChar (n % 10)]
decreasing_by exact Nat.div_lt_self (by omega) (by omega)

/-- Digit-accumulating loop of integer parsing. -/
def parseDigits : List Char → Nat → Option Nat
  | [], acc => some acc
  | c :: t, acc =>
      if 48 ≤ c.toNat ∧ c.toNat ≤ 57 then
        parseDigits t (acc * 10 + (c.toNat - 48))
      else none

/-- Embedding of `str::parse::<usize>` (`src/lib.rs:235, 239`): empty input
fails, an optional leading `+` is allowed, then decimal digits.  (Overflow is
not modelled: values are `Nat`.) -/
def parseNatStr (s : List Char) : Option Nat :=
  match s with
  | [] => none
  | c :: t =>
      if c = '+' then (if t = [] then none else parseDigits t 0)
      else parseDigits (c :: t) 0

/-- `impl From<u64> for Id` (`src/lib.rs:207`): `i.to_string().parse()`,
with the panic on failure (`expect`) left visible as the `Except` error. -/
def fromU64 (n : Nat) : Except ParseError Id := fromStr (natChars n)

/-- `TryCastFrom<Id> for usize::opt_cast_from` (`src/lib.rs:238`). -/
def castIdToNat (i : Id) : Option Nat := parseNatStr i.as_str

/-! ## Hash adapter (`src/hash.rs`) -/

/-- The lowercase hex alphabet used by `hex::encode`. -/
def hexAlphabet : List Char := "0123456789abcdef".data

/-- Lowercase hex digit of `n < 16`. -/
def hexDigit (n : Nat) : Char := hexAlphabet.getD n '*'

/-- Embedding of `hex::encode`: each byte becomes two lowercase hex digits. -/
def hexEncode (bs : List Nat) : List Char :=
  bs.flatMap fun b => [hexDigit (b / 16), hexDigit (b % 16)]

/-- `impl From<GenericArray<T, U>> for Id` (`src/hash.rs:23`):
`hex::encode(hash).parse()`, with the panic on failure (`expect("hash")`)
left visible as the `Except` error. -/
def fromDigest (bs : List Nat) : Except ParseError Id := fromStr (hexEncode bs)

/-- `impl Hash<D> for Id` (`src/hash.rs:6`): digest of the UTF-8 bytes of
`self.as_str()`.  The digest algorithm `D` is abstract. -/
def hashIdByValue (D : List Nat → List Nat) (i : Id) : List Nat :=
  D (utf8Str i.as_str)

/-- `impl Hash<D> for &Id` (`src/hash.rs:12`): digest of the UTF-8 bytes of
`self.as_str()`. -/
def hashIdByRef (D : List Nat → List Nat) (i : Id) : List Nat :=
  D (utf8Str i.as_str)

/-! ## serde adapter (`src/serde.rs`) -/

/-- The deserializer's error channel: either a framework error from decoding
the wire string, or a `custom` error wrapping a validation failure
(`serde::de::Error::custom`, which is handed the `ParseError`'s message). -/
inductive DeError where
  | wire (msg : List Char) : DeError
  | custom (e : ParseError) : DeError
deriving DecidableEq

/-- `impl Deserialize for Id` (`src/serde.rs:6`): `String::deserialize`
(its outcome is the `input` argument), then `validate_id`, mapping a
validation failure through `Error::custom`, then wrap. -/
def deserializeId (input : Except DeError (List Char)) : Except DeError Id :=
  match input with
  | .error e => .error e
  | .ok s =>
      match validate_id s with
      | .error pe => .error (.custom pe)
      | .ok _ => .ok ⟨s⟩

/-! ## destream adapter (`src/destream.rs`) -/

/-- The stream decoder's error channel.  `invalidLength` is the framework's
own error produced when `next_value::<[u8; 0]>` is asked to decode a
non-empty sequence into a zero-length array (modelled from the destream
framework: a `[u8; 0]` decoder accepts exactly the empty sequence); the other
constructors are the `de::Error::custom` calls in `IdVisitor`
(`src/destream.rs:20, 27, 29, 32`). -/
inductive StreamError where
  | invalidLength (n : Nat) : StreamError
  | parse (e : ParseError) : StreamError
  | opRef : StreamError
  | noKey : StreamError
deriving DecidableEq

/-- `access.next_value::<[u8; 0]>(())` (`src/destream.rs:25`): succeeds with
the zero-length array exactly on an empty wire sequence. -/
def nextValueByteArray0 (v : List Nat) : Except StreamError (List Nat) :=
  if v = [] then .ok [] else .error (.invalidLength v.length)

/-- `IdVisitor::visit_string` (`src/destream.rs:19`):
`Id::from_str(&s).map_err(de::Error::custom)`. -/
def visitString (s : List Char) : Except StreamError Id :=
  match fromStr s with
  | .error e => .error (.parse e)
  | .ok i => .ok i

/-- `IdVisitor::visit_map` (`src/destream.rs:23`): read the key, decode the
value as `[u8; 0]`, and construct the `Id` from the key if the decoded value
is empty, else report `"Expected Id but found OpRef"`.  `key` is the result
of `next_key::<String>` and `v` the raw wire value sequence. -/
def visitMap (key : Option (List Char)) (v : List Nat) : Except StreamError Id :=
  match key with
  | some k =>
      match nextValueByteArray0 v with
      | .error e => .error e
      | .ok value =>
          if value.isEmpty then visitString k
          else .error .opRef
  | none => .error .noKey

/-- Is this outcome the `"Expected Id but found OpRef"` custom error? -/
def isOpRefError (r : Except StreamError Id) : Bool :=
  match r with
  | .error .opRef => true
  | _ => false

/-! ## Specification-side definitions

These restate parts of the spec in its own words, to be compared with the
embedded code. -/

/-- Which invariant an error message names. -/
inductive ErrKind where
  | empty : ErrKind
  | control : ErrKind
  | reserved : ErrKind
  | whitespace : ErrKind
deriving DecidableEq

/-- The invariant category a `ParseError` reports. -/
def ParseError.kind : ParseError → ErrKind
  | .empty => .empty
  | .controlChar .. => .control
  | .reservedPattern .. => .reserved
  | .whitespace .. => .whitespace

/-- The invariant category of a validation outcome, if it failed. -/
def errKindOf (r : Except ParseError Unit) : Option ErrKind :=
  match r with
  | .ok _ => none
  | .error e => some e.kind

/-- The first failed check in the fixed order empty → control → reserved
substring → whitespace, stated declaratively (`none` when every check
passes).  The control category here is the code's check, which truncates
each char to its low byte (`isCtrlByte`); the spec's words "code point below
32" describe a different, non-equivalent predicate — see the C2
counterexample. -/
def firstViolation (s : List Char) : Option ErrKind :=
  if s = [] then some .empty
  else if ∃ c ∈ s, isCtrlByte c then some .control
  else if ∃ p ∈ RESERVED_CHARS, containsSub p s then some .reserved
  else if ∃ c ∈ s, isWhiteChar c then some .whitespace
  else none

/-! ## Helper lemmas about substring search and validation -/

theorem containsSub_iff (p s : List Char) :
    containsSub p s = true ↔ ∃ a b, s = a ++ p ++ b := by
  induction s with
  | nil =>
    constructor
    · intro h
      have hp : p = [] := by simpa [containsSub, List.isEmpty_iff] using h
      exact ⟨[], [], by simp [hp]⟩
    · rintro ⟨a, b, hab⟩
      have h1 : a ++ p = [] ∧ b = [] := List.append_eq_nil.mp hab.symm
      have hp : p = [] := (List.append_eq_nil.mp h1.1).2
      simp [containsSub, hp]
  | cons c t ih =>
    constructor
    · intro h
      have h' : p <+: c :: t ∨ containsSub p t = true := by
        simpa [containsSub] using h
      rcases h' with hpre | hrest
      · obtain ⟨b, hb⟩ := hpre
        exact ⟨[], b, by simp [← hb]⟩
      · obtain ⟨a, b, hab⟩ := ih.mp hrest
        exact ⟨c :: a, b, by simp [hab]⟩
    · rintro ⟨a, b, hab⟩
      cases a with
      | nil =>
        have hpre : p <+: c :: t := ⟨b, by simpa using hab.symm⟩
        simp [containsSub, List.isPrefixOf_iff_prefix.mpr hpre]
      | cons c' a' =>
        have hc : c' = c := by simpa using congrArg (List.head? ·) hab.symm
        have ht : t = a' ++ p ++ b := by
          have := congrArg List.tail hab
          simpa using this
        simp [containsSub, ih.mpr ⟨a', b, ht⟩]

/-- A pattern occurring as a substring has all its characters in the string. -/
theorem mem_of_containsSub {p s : List Char} (h : containsSub p s = true) :
    ∀ c ∈ p, c ∈ s := by
  obtain ⟨a, b, rfl⟩ := (containsSub_iff p s).mp h
  intro c hc
  simp [List.mem_append, hc]

/-- The characters that appear in the reserved patterns. -/
def reservedCharSet : List Char :=
  ['/', '.', '~', '$', '`', '&', '|', '=', '^', '{', '}', '<', '>',
   '\'', '"', '?', ':', '@', '#', '(', ')']

/-- A string none of whose characters is a reserved character contains no
reserved pattern. -/
theorem reserved_not_contained {s : List Char}
    (h : ∀ c ∈ s, c ∉ reservedCharSet) :
    ∀ p ∈ RESERVED_CHARS, containsSub p s = false := by
  intro p hp
  by_contra hcs
  have hcs' : containsSub p s = true := by
    revert hcs
    cases containsSub p s <;> simp
  have hall : ∀ q ∈ RESERVED_CHARS, ∃ c ∈ q, c ∈ reservedCharSet := by decide
  obtain ⟨c, hcp, hcr⟩ := hall p hp
  exact h c (mem_of_containsSub hcs' c hcp) hcr

theorem findReservedIn_eq_none {s : List Char} {ps : List (List Char)} :
    findReservedIn s ps = none ↔ ∀ p ∈ ps, containsSub p s = false := by
  induction ps with
  | nil => simp [findReservedIn]
  | cons p ps ih =>
    by_cases h : containsSub p s = true
    · simp [findReservedIn, h]
    · simp only [Bool.not_eq_true] at h
      simp [findReservedIn, h, ih]

theorem findReservedIn_isSome {s : List Char} {ps : List (List Char)} :
    (findReservedIn s ps).isSome = true ↔ ∃ p ∈ ps, containsSub p s = true := by
  induction ps with
  | nil => simp [findReservedIn]
  | cons p ps ih =>
    by_cases h : containsSub p s = true
    · simp [findReservedIn, h]
    · simp only [Bool.not_eq_true] at h
      simp [findReservedIn, h, ih]

/-- What successful validation means, check by check. -/
theorem validate_ok_iff (s : List Char) :
    validate_id s = .ok () ↔
      s ≠ [] ∧ (∀ c ∈ s, isCtrlByte c = false)
        ∧ (∀ p ∈ RESERVED_CHARS, containsSub p s = false)
        ∧ (∀ c ∈ s, isWhiteChar c = false) := by
  constructor
  · intro h
    by_cases h0 : s = []
    · simp [validate_id, h0] at h
    rw [validate_id, if_neg h0] at h
    cases hc : s.find? isCtrlByte with
    | some c => rw [hc] at h; cases h
    | none =>
      rw [hc] at h
      cases hr : findReservedIn s RESERVED_CHARS with
      | some p => rw [hr] at h; cases h
      | none =>
        rw [hr] at h
        cases hw : s.find? isWhiteChar with
        | some w => rw [hw] at h; cases h
        | none =>
          refine ⟨h0, ?_, findReservedIn_eq_none.mp hr, ?_⟩
          · intro c hcs
            have := List.find?_eq_none.mp hc c hcs
            revert this
            cases isCtrlByte c <;> simp
          · intro c hcs
            have := List.find?_eq_none.mp hw c hcs
            revert this
            cases isWhiteChar c <;> simp
  · rintro ⟨h0, hctrl, hres, hwhite⟩
    rw [validate_id, if_neg h0]
    rw [List.find?_eq_none.mpr (fun c hc => by simp [hctrl c hc])]
    rw [findReservedIn_eq_none.mpr hres]
    rw [List.find?_eq_none.mpr (fun c hc => by simp [hwhite c hc])]

/-- Validation succeeds on a non-empty string whose characters all come from
a set of characters that are not control bytes, not whitespace, and not
reserved characters. -/
theorem validate_ok_of_subset {s : List Char} (good : List Char)
    (hne : s ≠ []) (hsub : ∀ c ∈ s, c ∈ good)
    (hgood : ∀ c ∈ good,
      isCtrlByte c = false ∧ isWhiteChar c = false ∧ c ∉ reservedCharSet) :
    validate_id s = .ok () := by
  refine (validate_ok_iff s).mpr ⟨hne, ?_, ?_, ?_⟩
  · exact fun c hc => (hgood c (hsub c hc)).1
  · exact reserved_not_contained fun c hc => (hgood c (hsub c hc)).2.2
  · exact fun c hc => (hgood c (hsub c hc)).2.1

/-- Successful `from_str` means validation succeeded and the payload is the
input. -/
theorem fromStr_ok {s : List Char} {i : Id} (h : fromStr s = .ok i) :
    validate_id s = .ok () ∧ i = ⟨s⟩ := by
  rw [fromStr] at h
  cases hv : validate_id s with
  | error e => rw [hv] at h; cases h
  | ok u =>
    rw [hv] at h
    exact ⟨by cases u; rfl, by cases h; rfl⟩

/-! ## Claim theorems -/

/-- C1 (counterexample).  The claim as stated is false: the one-character
string `"Ā"` (U+0100) is non-empty, has no character with code point below
32, contains no reserved substring and no whitespace, yet `Id::from_str`
rejects it, because `validate_id` truncates each char with `as u8` before
comparing with 32 (U+0100 truncates to byte 0). -/
theorem parse_valid_counterexample :
    ([Char.ofNat 0x100] ≠ ([] : List Char))
    ∧ (∀ c ∈ [Char.ofNat 0x100], ¬ c.toNat < 32)
    ∧ (∀ p ∈ RESERVED_CHARS, ¬ ∃ a b, [Char.ofNat 0x100] = a ++ p ++ b)
    ∧ (∀ c ∈ [Char.ofNat 0x100], isWhiteChar c = false)
    ∧ (fromStr [Char.ofNat 0x100]
        = .error (.controlChar [Char.ofNat 0x100] 0)) := by
  refine ⟨by decide, by decide, ?_, by decide, by decide⟩
  intro p hp hex
  have hc : containsSub p [Char.ofNat 0x100] = true :=
    (containsSub_iff p _).mpr hex
  have hf : ∀ q ∈ RESERVED_CHARS, containsSub q [Char.ofNat 0x100] = false :=
    by decide
  rw [hf p hp] at hc
  cases hc

/-- C1 (amended).  For every string `s` that is non-empty, contains no
character whose code point **reduced modulo 256** is below 32 (the code
compares `c as u8` with 32), contains none of the 21 reserved substrings,
and contains no whitespace character, `Id::from_str` succeeds and the
resulting `Id`'s `as_str` equals `s` exactly. -/
theorem parse_valid_strings (s : List Char) (h1 : s ≠ [])
    (h2 : ∀ c ∈ s, ¬ c.toNat % 256 < 32)
    (h3 : ∀ p ∈ RESERVED_CHARS, ¬ ∃ a b, s = a ++ p ++ b)
    (h4 : ∀ c ∈ s, isWhiteChar c = false) :
    fromStr s = .ok ⟨s⟩ ∧ Id.as_str ⟨s⟩ = s := by
  have hv : validate_id s = .ok () := by
    refine (validate_ok_iff s).mpr ⟨h1, ?_, ?_, h4⟩
    · intro c hc
      simp [isCtrlByte, h2 c hc]
    · intro p hp
      by_contra hcs
      have hcs' : containsSub p s = true := by
        revert hcs
        cases containsSub p s <;> simp
      exact h3 p hp ((containsSub_iff p s).mp hcs')
  exact ⟨by rw [fromStr, hv], rfl⟩

/-- C1 (witness): the amended theorem applied to the concrete string
`"hello"`. -/
theorem parse_valid_strings_witness :
    fromStr "hello".data = .ok ⟨"hello".data⟩
    ∧ Id.as_str ⟨"hello".data⟩ = "hello".data := by
  refine parse_valid_strings "hello".data (by decide) (by decide) ?_ (by decide)
  intro p hp hex
  have hc : containsSub p "hello".data = true := (containsSub_iff p _).mpr hex
  have hf : ∀ q ∈ RESERVED_CHARS, containsSub q "hello".data = false := by
    decide
  rw [hf p hp] at hc
  cases hc

/-- C2 (counterexample).  The claim as stated is false: in the two-character
string `"Ā "` (U+0100 then a space) the only violated invariant — taking the
claim's control-character invariant as its cited spec text fixes it, code
point below 32 — is whitespace (the string is non-empty, every code point is
at least 32, and no reserved substring occurs), so the first violated
invariant in the claimed order is whitespace; yet `validate_id` reports the
control category, because its check truncates U+0100 to byte 0. -/
theorem validate_check_order_counterexample :
    ([Char.ofNat 0x100, ' '] ≠ ([] : List Char))
    ∧ (∀ c ∈ [Char.ofNat 0x100, ' '], ¬ c.toNat < 32)
    ∧ (∀ p ∈ RESERVED_CHARS, ¬ ∃ a b, [Char.ofNat 0x100, ' '] = a ++ p ++ b)
    ∧ (∃ c ∈ [Char.ofNat 0x100, ' '], isWhiteChar c = true)
    ∧ errKindOf (validate_id [Char.ofNat 0x100, ' ']) = some .control := by
  refine ⟨by decide, by decide, ?_, by decide, by decide⟩
  intro p hp hex
  have hc : containsSub p [Char.ofNat 0x100, ' '] = true :=
    (containsSub_iff p _).mpr hex
  have hf : ∀ q ∈ RESERVED_CHARS,
      containsSub q [Char.ofNat 0x100, ' '] = false := by decide
  rw [hf p hp] at hc
  cases hc

/-- C2 (amended).  `validate_id` reports exactly the first failed check in
the fixed order empty → control → reserved substring → whitespace (stated
declaratively by `firstViolation`), short-circuiting at the first failure,
where the control check rejects a character whose code point reduced modulo
256 is below 32 (the code truncates each char with `as u8`); and
`Id::from_str ""` fails with the empty-input error. -/
theorem validate_check_order :
    (∀ s, errKindOf (validate_id s) = firstViolation s)
    ∧ fromStr [] = .error .empty := by
  refine ⟨?_, by decide⟩
  intro s
  by_cases h0 : s = []
  · simp [validate_id, firstViolation, errKindOf, h0, ParseError.kind]
  rw [validate_id, firstViolation, if_neg h0, if_neg h0]
  cases hc : s.find? isCtrlByte with
  | some c =>
    have hex : ∃ c ∈ s, isCtrlByte c = true :=
      ⟨c, List.mem_of_find?_eq_some hc, List.find?_some hc⟩
    rw [if_pos hex]
    rfl
  | none =>
    have hnc : ¬ ∃ c ∈ s, isCtrlByte c = true := by
      rintro ⟨c, hcs, hct⟩
      have := List.find?_eq_none.mp hc c hcs
      exact this hct
    rw [if_neg hnc]
    cases hr : findReservedIn s RESERVED_CHARS with
    | some p =>
      have hex : ∃ p ∈ RESERVED_CHARS, containsSub p s = true := by
        apply findReservedIn_isSome.mp
        rw [hr]
        rfl
      rw [if_pos hex]
      rfl
    | none =>
      have hnr : ¬ ∃ p ∈ RESERVED_CHARS, containsSub p s = true := by
        intro hex
        have := findReservedIn_isSome.mpr hex
        rw [hr] at this
        cases this
      rw [if_neg hnr]
      cases hw : s.find? isWhiteChar with
      | some w =>
        have hex : ∃ c ∈ s, isWhiteChar c = true :=
          ⟨w, List.mem_of_find?_eq_some hw, List.find?_some hw⟩
        rw [if_pos hex]
        rfl
      | none =>
        have hnw : ¬ ∃ c ∈ s, isWhiteChar c = true := by
          rintro ⟨c, hcs, hct⟩
          exact List.find?_eq_none.mp hw c hcs hct
        rw [if_neg hnw]
        rfl

/-- C7.  The reserved-substring constant consists of exactly the 21 listed
strings, and the reserved-pattern scan of the validator rejects a candidate
exactly when one of them occurs anywhere in it as a raw contiguous substring
(containment, not token matching). -/
theorem reserved_chars_exact :
    RESERVED_CHARS
      = ["/".data, "..".data, "~".data, "$".data, "`".data, "&".data,
         "|".data, "=".data, "^".data, "\x7b".data, "\x7d".data, "<".data,
         ">".data, "'".data, "\"".data, "?".data, ":".data, "@".data,
         "#".data, "(".data, ")".data]
    ∧ RESERVED_CHARS.length = 21
    ∧ (∀ p s, containsSub p s = true ↔ ∃ a b, s = a ++ p ++ b)
    ∧ (∀ s, (findReservedIn s RESERVED_CHARS).isSome = true
        ↔ ∃ p ∈ RESERVED_CHARS, ∃ a b, s = a ++ p ++ b) := by
  refine ⟨rfl, by decide, containsSub_iff, ?_⟩
  intro s
  rw [findReservedIn_isSome]
  constructor
  · rintro ⟨p, hp, hc⟩
    exact ⟨p, hp, (containsSub_iff p s).mp hc⟩
  · rintro ⟨p, hp, hex⟩
    exact ⟨p, hp, (containsSub_iff p s).mpr hex⟩

/-! ## Hex encoding lemmas (C3) -/

theorem hexDigit_mem {n : Nat} (h : n < 16) : hexDigit n ∈ hexAlphabet := by
  revert h
  revert n
  decide

theorem mem_hexEncode {bs : List Nat} (hb : ∀ b ∈ bs, b < 256) :
    ∀ c ∈ hexEncode bs, c ∈ hexAlphabet := by
  intro c hc
  rw [hexEncode, List.mem_flatMap] at hc
  obtain ⟨b, hbs, hcb⟩ := hc
  have h16 : b / 16 < 16 := by
    have := hb b hbs
    omega
  have h16' : b % 16 < 16 := by omega
  simp only [List.mem_cons, List.not_mem_nil, or_false] at hcb
  rcases hcb with rfl | rfl
  · exact hexDigit_mem h16
  · exact hexDigit_mem h16'

/-- C3 (counterexample).  The claim as stated is false at the empty byte
sequence: `hex::encode` of zero bytes is the empty string, which fails
validation, so the `From<GenericArray>` conversion's internal parse errors
(and its `expect("hash")` panics at runtime). -/
theorem from_digest_counterexample :
    fromDigest [] = .error .empty ∧ hexEncode [] = [] := by decide

/-- C3 (amended).  For every **non-empty** byte sequence `b`, the lowercase
hexadecimal encoding of `b` satisfies invariants I1–I4, so the conversion
`From<GenericArray>` succeeds, yielding the `Id` whose payload is the hex
encoding of `b`. -/
theorem from_digest_ok (bs : List Nat) (h1 : bs ≠ [])
    (h2 : ∀ b ∈ bs, b < 256) :
    fromDigest bs = .ok ⟨hexEncode bs⟩
    ∧ validate_id (hexEncode bs) = .ok () := by
  have hne : hexEncode bs ≠ [] := by
    cases bs with
    | nil => exact absurd rfl h1
    | cons b t => simp [hexEncode]
  have hv : validate_id (hexEncode bs) = .ok () := by
    refine validate_ok_of_subset hexAlphabet hne (mem_hexEncode h2) ?_
    decide
  exact ⟨by rw [fromDigest, fromStr, hv], hv⟩

/-- C3 (witness): the amended theorem applied to the byte sequence
`[0xAB, 0x01]`, whose hex encoding is `"ab01"`. -/
theorem from_digest_ok_witness :
    fromDigest [0xAB, 0x01] = .ok ⟨"ab01".data⟩
    ∧ validate_id (hexEncode [0xAB, 0x01]) = .ok () := by
  have h := from_digest_ok [0xAB, 0x01] (by decide) (by decide)
  have he : hexEncode [0xAB, 0x01] = "ab01".data := by decide
  exact ⟨by rw [h.1, he], h.2⟩

/-! ## Decimal rendering lemmas (C5) -/

theorem natChars_ne_nil (n : Nat) : natChars n ≠ [] := by
  rw [natChars]
  split <;> simp

theorem natChars_digits (n : Nat) : ∀ c ∈ natChars n, c ∈ "0123456789".data := by
  induction n using Nat.strong_induction_on with
  | _ n ih =>
    rw [natChars]
    split
    case isTrue h =>
      intro c hc
      rw [List.mem_singleton] at hc
      subst hc
      have : ∀ m, m < 10 → digitChar m ∈ "0123456789".data := by decide
      exact this n h
    case isFalse h =>
      intro c hc
      rw [List.mem_append] at hc
      rcases hc with hc | hc
      · exact ih (n / 10) (Nat.div_lt_self (by omega) (by omega)) c hc
      · rw [List.mem_singleton] at hc
        subst hc
        have : ∀ m, m < 10 → digitChar m ∈ "0123456789".data := by decide
        exact this (n % 10) (Nat.mod_lt _ (by omega))

theorem parseDigits_append (a b : List Char) (acc : Nat) :
    parseDigits (a ++ b) acc
      = (parseDigits a acc).bind (fun r => parseDigits b r) := by
  induction a generalizing acc with
  | nil => simp [parseDigits]
  | cons c t ih =>
    by_cases h : 48 ≤ c.toNat ∧ c.toNat ≤ 57
    · simp [parseDigits, h, ih]
    · simp [parseDigits, h]

theorem digitChar_toNat {n : Nat} (h : n < 10) : (digitChar n).toNat = 48 + n := by
  revert h
  revert n
  decide

theorem parseDigits_natChars (n : Nat) : ∀ acc,
    parseDigits (natChars n) acc
      = some (acc * 10 ^ (natChars n).length + n) := by
  induction n using Nat.strong_induction_on with
  | _ n ih =>
    intro acc
    rw [natChars]
    split
    case isTrue h =>
      have hd := digitChar_toNat h
      have hcond : 48 ≤ (digitChar n).toNat ∧ (digitChar n).toNat ≤ 57 := by
        omega
      simp [parseDigits, hcond, hd]
      omega
    case isFalse h =>
      have hlt : n / 10 < n := Nat.div_lt_self (by omega) (by omega)
      rw [parseDigits_append, ih (n / 10) hlt acc]
      have hd := digitChar_toNat (Nat.mod_lt n (show 0 < 10 by omega))
      have hcond : 48 ≤ (digitChar (n % 10)).toNat
          ∧ (digitChar (n % 10)).toNat ≤ 57 := by omega
      have hstep : ∀ m, parseDigits [digitChar (n % 10)] m
          = some (m * 10 + ((digitChar (n % 10)).toNat - 48)) := by
        intro m
        simp [parseDigits, hcond]
      simp only [Option.bind_eq_bind, Option.some_bind, hstep, hd,
        List.length_append, List.length_singleton]
      congr 1
      have hmod : n / 10 * 10 + n % 10 = n := by omega
      have hsub : 48 + n % 10 - 48 = n % 10 := by omega
      rw [hsub]
      calc (acc * 10 ^ (natChars (n / 10)).length + n / 10) * 10 + n % 10
          = acc * 10 ^ ((natChars (n / 10)).length + 1)
            + (n / 10 * 10 + n % 10) := by ring
        _ = acc * 10 ^ ((natChars (n / 10)).length + 1) + n := by rw [hmod]

theorem parseNatStr_natChars (n : Nat) : parseNatStr (natChars n) = some n := by
  cases hnc : natChars n with
  | nil => exact absurd hnc (natChars_ne_nil n)
  | cons c t =>
    have hc : c ∈ "0123456789".data := by
      have := natChars_digits n c
      rw [hnc] at this
      exact this (by simp)
    have hcp : c ≠ '+' := by
      intro h
      subst h
      revert hc
      decide
    rw [parseNatStr, if_neg hcp, ← hnc, parseDigits_natChars n 0]
    simp

/-- C5.  For every non-negative integer `n`, `From<u64>` / `From<usize>`
succeeds (the decimal rendering of `n` never violates I1–I4), the resulting
`Id` casts back to `n` via `TryCastFrom<Id> for usize`, and its `as_str` is
the decimal rendering of `n`. -/
theorem int_conversion_roundtrip (n : Nat) :
    fromU64 n = .ok ⟨natChars n⟩
    ∧ castIdToNat ⟨natChars n⟩ = some n
    ∧ Id.as_str ⟨natChars n⟩ = natChars n := by
  have hv : validate_id (natChars n) = .ok () := by
    refine validate_ok_of_subset "0123456789".data (natChars_ne_nil n)
      (natChars_digits n) ?_
    decide
  refine ⟨by rw [fromU64, fromStr, hv], ?_, rfl⟩
  rw [castIdToNat, Id.as_str, parseNatStr_natChars]

/-! ## serde adapter (C6) -/

/-- C6.  Deserializing an `Id` from a successfully decoded string token
revalidates it: it succeeds exactly when `validate_id` succeeds; on failure
the framework error wraps the validation error verbatim (`Error::custom`)
and no `Id` is produced; on success the payload is the decoded text. -/
theorem serde_deserialize_revalidates (s : List Char) :
    ((deserializeId (.ok s)).isOk ↔ (validate_id s).isOk = true)
    ∧ (∀ e, validate_id s = .error e
        → deserializeId (.ok s) = .error (.custom e))
    ∧ (∀ i, deserializeId (.ok s) = .ok i
        → validate_id s = .ok () ∧ i.inner = s) := by
  cases hv : validate_id s with
  | error e =>
    refine ⟨by simp [deserializeId, hv, Except.isOk, Except.toBool], ?_, ?_⟩
    · intro e' he'
      cases he'
      simp [deserializeId, hv]
    · intro i hi
      simp [deserializeId, hv] at hi
  | ok u =>
    cases u
    refine ⟨by simp [deserializeId, hv, Except.isOk, Except.toBool], ?_, ?_⟩
    · intro e' he'
      cases he'
    · intro i hi
      simp only [deserializeId, hv] at hi
      cases hi
      exact ⟨rfl, rfl⟩

/-- C6 (witness): the theorem applied to the concrete string `" "`, whose
validation fails with the whitespace error. -/
theorem serde_deserialize_witness :
    deserializeId (.ok " ".data) = .error (.custom (.whitespace " ".data ' ')) :=
  (serde_deserialize_revalidates " ".data).2.1 _ (by decide)

/-! ## hash adapter (C9) -/

/-- C9.  Hashing an `Id` by value and by reference under the same digest
algorithm produce identical output: both digest the UTF-8 bytes of
`as_str`. -/
theorem hash_by_value_eq_by_ref (D : List Nat → List Nat) (i : Id) :
    hashIdByValue D i = hashIdByRef D i := rfl

/-! ## destream adapter (C4) -/

/-- C4.  Decoding the keyed structure `{"x": []}` yields the `Id` `"x"`;
decoding `{"x": [1]}` fails, but with the framework's invalid-length error
from decoding the non-empty value into a `[u8; 0]`, not with the
`"Expected Id but found OpRef"` custom error; indeed no input at all can
produce the OpRef error, because the decoded `[u8; 0]` value is always
empty, making that branch dead code. -/
theorem visit_map_behavior :
    visitMap (some "x".data) [] = .ok ⟨"x".data⟩
    ∧ visitMap (some "x".data) [1] = .error (.invalidLength 1)
    ∧ (∀ k v, isOpRefError (visitMap k v) = false) := by
  refine ⟨by decide, by decide, ?_⟩
  intro k v
  cases k with
  | none => rfl
  | some s =>
    by_cases hv : v = []
    · subst hv
      simp only [visitMap, nextValueByteArray0, if_pos rfl, List.isEmpty_nil,
        if_pos rfl]
      rw [visitString]
      cases fromStr s <;> rfl
    · simp [visitMap, nextValueByteArray0, hv, isOpRefError]

/-! ## construction invariant (C10) -/

/-- C10.  Every `Id` obtained through a validating path — `from_str`,
`TryCastFrom<String>`, serde deserialization, or the destream string/map
visitors — has a payload on which `validate_id` succeeds. -/
theorem constructors_establish_invariant :
    (∀ s i, fromStr s = .ok i → validate_id i.inner = .ok ())
    ∧ (∀ s i, optCastFromString s = some i → validate_id i.inner = .ok ())
    ∧ (∀ r i, deserializeId r = .ok i → validate_id i.inner = .ok ())
    ∧ (∀ s i, visitString s = .ok i → validate_id i.inner = .ok ())
    ∧ (∀ k v i, visitMap k v = .ok i → validate_id i.inner = .ok ()) := by
  have hfs : ∀ s i, fromStr s = .ok i → validate_id i.inner = .ok () := by
    intro s i h
    obtain ⟨hv, rfl⟩ := fromStr_ok h
    exact hv
  have hvs : ∀ s i, visitString s = .ok i → validate_id i.inner = .ok () := by
    intro s i h
    rw [visitString] at h
    cases hf : fromStr s with
    | error e => rw [hf] at h; cases h
    | ok j =>
      rw [hf] at h
      cases h
      exact hfs s i hf
  refine ⟨hfs, ?_, ?_, hvs, ?_⟩
  · intro s i h
    rw [optCastFromString] at h
    cases hf : fromStr s with
    | error e => rw [hf] at h; cases h
    | ok j =>
      rw [hf] at h
      cases h
      exact hfs s i hf
  · intro r i h
    cases r with
    | error e => cases h
    | ok s =>
      cases hv : validate_id s with
      | error e => simp [deserializeId, hv] at h
      | ok u =>
        cases u
        simp only [deserializeId, hv] at h
        cases h
        exact hv
  · intro k v i h
    cases k with
    | none => cases h
    | some s =>
      by_cases hv : v = []
      · subst hv
        simp only [visitMap, nextValueByteArray0, if_pos rfl,
          List.isEmpty_nil, if_pos rfl] at h
        exact hvs s i h
      · simp [visitMap, nextValueByteArray0, hv] at h

/-- C10 (witness): the invariant instantiated on the concrete parse of
`"x"`. -/
theorem constructors_invariant_witness :
    validate_id (Id.mk "x".data).inner = .ok () :=
  constructors_establish_invariant.1 "x".data ⟨"x".data⟩ (by decide)

/-! ## UTF-8 order lemmas (C8)

Rust compares `str` values by their UTF-8 bytes.  The lemmas below show that
this byte-wise lexicographic order is a strict total order on strings: the
key facts are that the UTF-8 encodings of two distinct code points differ at
a position present in both (no encoding is a proper prefix of another), and
that encoding is monotone. -/

theorem utf8Nat_ne_nil (n : Nat) : utf8Nat n ≠ [] := by
  rw [utf8Nat]
  split_ifs <;> simp

theorem utf8Char_eq (c : Char) : utf8Char c = utf8Nat c.toNat := rfl

theorem utf8Str_cons (c : Char) (l : List Char) :
    utf8Str (c :: l) = utf8Char c ++ utf8Str l := rfl

/-- Encodings of two code points `n < m` agree on a common (possibly empty)
prefix and then differ, the byte of `n` being strictly smaller. -/
theorem utf8Nat_firstDiff {n m : Nat} (h : n < m) :
    ∃ p x u y v, utf8Nat n = p ++ x :: u ∧ utf8Nat m = p ++ y :: v ∧ x < y := by
  rw [utf8Nat, utf8Nat]
  split_ifs with h1 h2 h3 h4 h5 h6 h7 h8 h9 h10 h11 h12
  all_goals try (exfalso; omega)
  -- 1-byte n against each class of m
  · exact ⟨[], n, [], m, [], rfl, rfl, h⟩
  · exact ⟨[], n, [], 0xC0 + m / 64, [0x80 + m % 64], rfl, rfl, by omega⟩
  · exact ⟨[], n, [], 0xE0 + m / 4096,
      [0x80 + m / 64 % 64, 0x80 + m % 64], rfl, rfl, by omega⟩
  · exact ⟨[], n, [], 0xF0 + m / 262144,
      [0x80 + m / 4096 % 64, 0x80 + m / 64 % 64, 0x80 + m % 64],
      rfl, rfl, by omega⟩
  -- 2-byte n
  · by_cases hq : n / 64 = m / 64
    · exact ⟨[0xC0 + n / 64], 0x80 + n % 64, [], 0x80 + m % 64, [],
        by simp, by simp [hq], by omega⟩
    · exact ⟨[], 0xC0 + n / 64, [0x80 + n % 64], 0xC0 + m / 64,
        [0x80 + m % 64], rfl, rfl, by omega⟩
  · exact ⟨[], 0xC0 + n / 64, [0x80 + n % 64], 0xE0 + m / 4096,
      [0x80 + m / 64 % 64, 0x80 + m % 64], rfl, rfl, by omega⟩
  · exact ⟨[], 0xC0 + n / 64, [0x80 + n % 64], 0xF0 + m / 262144,
      [0x80 + m / 4096 % 64, 0x80 + m / 64 % 64, 0x80 + m % 64],
      rfl, rfl, by omega⟩
  -- 3-byte n
  · by_cases hq1 : n / 4096 = m / 4096
    · by_cases hq2 : n / 64 % 64 = m / 64 % 64
      · exact ⟨[0xE0 + n / 4096, 0x80 + n / 64 % 64], 0x80 + n % 64, [],
          0x80 + m % 64, [], by simp, by simp [hq1, hq2], by omega⟩
      · exact ⟨[0xE0 + n / 4096], 0x80 + n / 64 % 64, [0x80 + n % 64],
          0x80 + m / 64 % 64, [0x80 + m % 64],
          by simp, by simp [hq1], by omega⟩
    · exact ⟨[], 0xE0 + n / 4096, [0x80 + n / 64 % 64, 0x80 + n % 64],
        0xE0 + m / 4096, [0x80 + m / 64 % 64, 0x80 + m % 64],
        rfl, rfl, by omega⟩
  · exact ⟨[], 0xE0 + n / 4096, [0x80 + n / 64 % 64, 0x80 + n % 64],
      0xF0 + m / 262144,
      [0x80 + m / 4096 % 64, 0x80 + m / 64 % 64, 0x80 + m % 64],
      rfl, rfl, by omega⟩
  -- 4-byte n
  · by_cases hq1 : n / 262144 = m / 262144
    · by_cases hq2 : n / 4096 % 64 = m / 4096 % 64
      · by_cases hq3 : n / 64 % 64 = m / 64 % 64
        · exact ⟨[0xF0 + n / 262144, 0x80 + n / 4096 % 64,
              0x80 + n / 64 % 64], 0x80 + n % 64, [], 0x80 + m % 64, [],
            by simp, by simp [hq1, hq2, hq3], by omega⟩
        · exact ⟨[0xF0 + n / 262144, 0x80 + n / 4096 % 64],
            0x80 + n / 64 % 64, [0x80 + n % 64],
            0x80 + m / 64 % 64, [0x80 + m % 64],
            by simp, by simp [hq1, hq2], by omega⟩
      · exact ⟨[0xF0 + n / 262144], 0x80 + n / 4096 % 64,
          [0x80 + n / 64 % 64, 0x80 + n % 64],
          0x80 + m / 4096 % 64, [0x80 + m / 64 % 64, 0x80 + m % 64],
          by simp, by simp [hq1], by omega⟩
    · exact ⟨[], 0xF0 + n / 262144,
        [0x80 + n / 4096 % 64, 0x80 + n / 64 % 64, 0x80 + n % 64],
        0xF0 + m / 262144,
        [0x80 + m / 4096 % 64, 0x80 + m / 64 % 64, 0x80 + m % 64],
        rfl, rfl, by omega⟩

/-- Lists agreeing on a prefix and then differing compare lexicographically
however they continue. -/
theorem lex_append_firstDiff {x y : Nat} (hxy : x < y)
    (p : List Nat) (u v r s : List Nat) :
    List.Lex (· < ·) ((p ++ x :: u) ++ r) ((p ++ y :: v) ++ s) := by
  induction p with
  | nil => exact List.Lex.rel hxy
  | cons a t ih => exact List.Lex.cons ih

/-- Code-point comparison of characters. -/
def charLtNat (c d : Char) : Prop := c.toNat < d.toNat

theorem utf8Str_lex_of_char_lex {xs ys : List Char}
    (h : List.Lex charLtNat xs ys) :
    List.Lex (· < ·) (utf8Str xs) (utf8Str ys) := by
  induction h with
  | @nil a l =>
    cases hu : utf8Char a with
    | nil => exact absurd hu (utf8Nat_ne_nil _)
    | cons b bs =>
      rw [show utf8Str [] = [] from rfl, utf8Str_cons, hu, List.cons_append]
      exact List.Lex.nil
  | @cons a l₁ l₂ h ih =>
    rw [utf8Str_cons, utf8Str_cons]
    exact List.Lex.append_left _ ih _
  | @rel a₁ l₁ a₂ l₂ hr =>
    obtain ⟨p, xb, u, yb, v, h1, h2, hlt⟩ := utf8Nat_firstDiff hr
    rw [utf8Str_cons, utf8Str_cons, utf8Char_eq, utf8Char_eq, h1, h2]
    exact lex_append_firstDiff hlt p u v _ _

theorem char_trichotomy (xs ys : List Char) :
    xs = ys ∨ List.Lex charLtNat xs ys ∨ List.Lex charLtNat ys xs := by
  induction xs generalizing ys with
  | nil =>
    cases ys with
    | nil => exact Or.inl rfl
    | cons d u => exact Or.inr (Or.inl List.Lex.nil)
  | cons c t ih =>
    cases ys with
    | nil => exact Or.inr (Or.inr List.Lex.nil)
    | cons d u =>
      rcases Nat.lt_trichotomy c.toNat d.toNat with hlt | heq | hgt
      · exact Or.inr (Or.inl (List.Lex.rel hlt))
      · have hcd : c = d := by
          rw [← Char.ofNat_toNat c, ← Char.ofNat_toNat d, heq]
        subst hcd
        rcases ih u with rfl | hl | hl
        · exact Or.inl rfl
        · exact Or.inr (Or.inl (List.Lex.cons hl))
        · exact Or.inr (Or.inr (List.Lex.cons hl))
      · exact Or.inr (Or.inr (List.Lex.rel hgt))

theorem lex_nat_irrefl (l : List Nat) : ¬ List.Lex (· < ·) l l := by
  induction l with
  | nil => intro h; cases h
  | cons a t ih =>
    intro h
    cases h with
    | cons h' => exact ih h'
    | rel hr => exact Nat.lt_irrefl _ hr

theorem lex_nat_trans {a b c : List Nat} (h1 : List.Lex (· < ·) a b)
    (h2 : List.Lex (· < ·) b c) : List.Lex (· < ·) a c := by
  induction h1 generalizing c with
  | nil =>
    cases h2 with
    | cons _ => exact List.Lex.nil
    | rel _ => exact List.Lex.nil
  | cons h ih =>
    cases h2 with
    | cons h' => exact List.Lex.cons (ih h')
    | rel hr => exact List.Lex.rel hr
  | rel hr =>
    cases h2 with
    | cons h' => exact List.Lex.rel hr
    | rel hr' => exact List.Lex.rel (Nat.lt_trans hr hr')

/-- C8.  Equality between `Id`, `Label` and raw strings is by content, not
by type, and the derived order on `Id` is exactly byte-wise lexicographic
order on the UTF-8 payload bytes, a strict total order. -/
theorem eq_and_ord_by_content :
    (∀ s : List Char,
      labelEqId (label s) ⟨s⟩ = true ∧ idEqLabel ⟨s⟩ (label s) = true
        ∧ idEqStr ⟨s⟩ s = true ∧ strEqId s ⟨s⟩ = true
        ∧ idFromLabel (label s) = ⟨s⟩)
    ∧ (∀ a b : Id,
        idLt a b ↔ List.Lex (· < ·) (utf8Str a.inner) (utf8Str b.inner))
    ∧ (∀ a : Id, ¬ idLt a a)
    ∧ (∀ a b c : Id, idLt a b → idLt b c → idLt a c)
    ∧ (∀ a b : Id, a ≠ b → idLt a b ∨ idLt b a) := by
  refine ⟨?_, fun a b => Iff.rfl, ?_, ?_, ?_⟩
  · intro s
    refine ⟨?_, ?_, ?_, ?_, rfl⟩ <;> simp [labelEqId, idEqLabel, idEqStr,
      strEqId, label, Id.as_str]
  · intro a
    exact lex_nat_irrefl _
  · intro a b c h1 h2
    exact lex_nat_trans h1 h2
  · intro a b hne
    have hin : a.inner ≠ b.inner := by
      intro h
      apply hne
      cases a
      cases b
      cases h
      rfl
    rcases char_trichotomy a.inner b.inner with heq | hl | hl
    · exact absurd heq hin
    · exact Or.inl (utf8Str_lex_of_char_lex hl)
    · exact Or.inr (utf8Str_lex_of_char_lex hl)

/-- C8 (witness): the transitivity clause applied to the concrete `Id`s
`"a" < "b" < "c"`. -/
theorem eq_and_ord_witness : idLt ⟨"a".data⟩ ⟨"c".data⟩ :=
  eq_and_ord_by_content.2.2.2.1 ⟨"a".data⟩ ⟨"b".data⟩ ⟨"c".data⟩
    (by decide) (by decide)

end HrId
